import Mathlib

/-!
Verification of the PyShotter screenshot library against its specification.

The development shallowly embeds the Python code of the repository:

* `Base` models `src/pyshotter/base.py` (`MSSBase._merge`, the cursor
  compositing routine used by `MSSBase.grab` when `with_cursor` is set);
* `Screenshot` models `src/pyshotter/screenshot.py` (`ScreenShot.pixels`,
  `ScreenShot.pixel`, including Python's negative-index semantics);
* `Features` models `src/pyshotter/features.py` (OCR box extraction,
  history search, the JSON round-trip of history entries, and the
  redaction frame effect);
* `Recording` models `src/pyshotter/recording.py` (recorder construction
  and the capture loop's frame buffering).

Machine integers are modelled as `Nat`/`Int`; byte buffers as `List Nat`
or as total functions from indices to byte values; fallible code returns
`Except`/`Option`.
-/

set_option maxHeartbeats 2000000
set_option maxRecDepth 10000

namespace PyShotter

/-- Python `range(a, b, 4)` as a list of integers (used by `MSSBase._merge`,
whose two loops step by 4). The length is `max 0 (ceil ((b - a) / 4))`. -/
def pyRange4 (a b : Int) : List Int :=
  (List.range ((b - a + 3).toNat / 4)).map (fun k : Nat => a + 4 * (k : Int))

/-- Python list subscription `l[i]` with its negative-index wrap-around:
`l[i]` is `l[i + len(l)]` for `-len(l) <= i < 0`, and an `IndexError`
(here `none`) outside `-len(l) <= i < len(l)`. -/
def pyGet {α : Type} (l : List α) (i : Int) : Option α :=
  let j := if i < 0 then i + l.length else i
  if 0 ≤ j then l[j.toNat]? else none

/-- Python `str.lower()`, character by character, as a list of characters. -/
def pyLower (s : String) : List Char :=
  s.data.map Char.toLower

/-- Python `needle in hay` on strings: contiguous substring containment. -/
def pyIn (needle hay : List Char) : Prop :=
  needle <:+: hay

instance (needle hay : List Char) : Decidable (pyIn needle hay) :=
  inferInstanceAs (Decidable (needle <:+: hay))

namespace Base

/-- A `ScreenShot` as consumed by `MSSBase._merge`: a BGRA byte buffer
(`raw`, one byte per index, modelled as a total function so that in-place
mutation becomes function update), a position `pos = (left, top)` and a
size `size = (width, height)`. -/
structure Shot where
  raw : Int → Nat
  left : Int
  top : Int
  width : Int
  height : Int

/-- `OPAQUE = 255` from base.py. -/
def OPAQUE : Nat := 255

/-!
Python evaluates the blend `int(cursor * alpha2 + screen * (1 - alpha2))`
in IEEE-754 binary64 arithmetic. The following helpers model binary64
exactly on the non-negative normal range (which contains every value
arising from byte inputs): a float is a dyadic pair `(m, e)` of value
`m * 2^e`, and every operation is the exact rational result rounded to a
53-bit significand, to nearest, ties to even.
-/

/-- Floor of the base-2 logarithm, computed with structural recursion fuel
so that it evaluates inside the kernel. -/
def log2fuel : Nat → Nat → Nat
  | 0, _ => 0
  | fuel + 1, n => if n < 2 then 0 else log2fuel fuel (n / 2) + 1

/-- Floor of the base-2 logarithm of a positive natural. -/
def nlog2 (n : Nat) : Nat :=
  log2fuel n n

/-- Does `den * 2^e ≤ num` hold (with `e` a possibly negative exponent)?
Locates the binade of the quotient `num / den`. -/
def le2 (den num : Nat) (e : Int) : Bool :=
  if 0 ≤ e then decide (den * 2 ^ e.toNat ≤ num)
  else decide (den ≤ num * 2 ^ (-e).toNat)

/-- Round the non-negative rational `num / den` to the nearest IEEE-754
binary64 value (round to nearest, ties to even), as a dyadic pair
`(m, e)` of value `m * 2^e` with a 53-bit significand. -/
def roundRat (num den : Nat) : Nat × Int :=
  if num = 0 then (0, 0)
  else
    let L : Int := nlog2 num
    let D : Int := nlog2 den
    let e : Int := if le2 den num (L - D) then L - D else L - D - 1
    let g : Int := e - 52
    let N := if g ≤ 0 then num * 2 ^ (-g).toNat else num
    let Dd := if g ≤ 0 then den else den * 2 ^ g.toNat
    let m := N / Dd
    let r := N % Dd
    let m2 := if 2 * r < Dd then m
      else if Dd < 2 * r then m + 1
      else if m % 2 = 0 then m else m + 1
    (m2, g)

/-- Round an exact dyadic value `m * 2^e` to binary64. -/
def roundDyadic (m : Nat) (e : Int) : Nat × Int :=
  if 0 ≤ e then roundRat (m * 2 ^ e.toNat) 1 else roundRat m (2 ^ (-e).toNat)

/-- Conversion of a Python int to float (exact for the bytes involved). -/
def dNat (n : Nat) : Nat × Int :=
  roundRat n 1

/-- Binary64 addition: exact dyadic sum, then one rounding. -/
def dAdd (u v : Nat × Int) : Nat × Int :=
  let emin := min u.2 v.2
  roundDyadic (u.1 * 2 ^ (u.2 - emin).toNat + v.1 * 2 ^ (v.2 - emin).toNat) emin

/-- Binary64 subtraction of the smaller operand from the larger (the blend
only subtracts `alpha2 ≤ 1` from 1): exact dyadic difference, then one
rounding. -/
def dSub (u v : Nat × Int) : Nat × Int :=
  let emin := min u.2 v.2
  roundDyadic (u.1 * 2 ^ (u.2 - emin).toNat - v.1 * 2 ^ (v.2 - emin).toNat) emin

/-- Binary64 multiplication: exact dyadic product, then one rounding. -/
def dMul (u v : Nat × Int) : Nat × Int :=
  roundDyadic (u.1 * v.1) (u.2 + v.2)

/-- Binary64 division: the exact rational quotient, rounded once. -/
def dDiv (u v : Nat × Int) : Nat × Int :=
  if 0 ≤ u.2 - v.2 then roundRat (u.1 * 2 ^ (u.2 - v.2).toNat) v.1
  else roundRat u.1 (v.1 * 2 ^ (v.2 - u.2).toNat)

/-- Python `int()` of a non-negative float: truncation towards zero. -/
def dTrunc (u : Nat × Int) : Nat :=
  if 0 ≤ u.2 then u.1 * 2 ^ u.2.toNat else u.1 / 2 ^ (-u.2).toNat

/-- One colour channel of the alpha blend in `MSSBase._merge`:
`int(cursor * alpha2 + screen * (1 - alpha2))` with `alpha2 = alpha / 255`,
evaluated exactly as the program does, in IEEE-754 binary64 arithmetic
(`alpha / 255`, the two products, the subtraction and the sum are each
correctly rounded, and `int()` truncates the non-negative result). -/
def blendByte (cv sv alpha : Nat) : Nat :=
  let alpha2 := dDiv (dNat alpha) (dNat 255)
  dTrunc (dAdd (dMul (dNat cv) alpha2) (dMul (dNat sv) (dSub (dNat 1) alpha2)))

/-- The body of the inner loop of `MSSBase._merge` for one `(count_y,
count_x)` pair, acting on the screen buffer at byte positions
`spos, spos + 1, spos + 2`:
if the cursor alpha `cursor_raw[cpos + 3]` is 0 the buffer is untouched;
if it is `OPAQUE` the three bytes are copied from `cursor_raw[cpos ..]`;
otherwise each byte is alpha blended. -/
def mergePixel (craw : Int → Nat) (sraw : Int → Nat) (spos cpos : Int) : Int → Nat :=
  let alpha := craw (cpos + 3)
  if alpha = 0 then sraw
  else if alpha = OPAQUE then
    fun idx => if spos ≤ idx ∧ idx < spos + 3 then craw (cpos + (idx - spos)) else sraw idx
  else
    fun idx =>
      if spos ≤ idx ∧ idx < spos + 3 then blendByte (craw (cpos + (idx - spos))) (sraw idx) alpha
      else sraw idx

/-- The overlap test of `MSSBase._merge`:
`cx < x2 and cx2 > x and cy < y2 and cy2 > y`. -/
def overlap (screenshot cursor : Shot) : Prop :=
  cursor.left < screenshot.left + screenshot.width ∧
  cursor.left + cursor.width > screenshot.left ∧
  cursor.top < screenshot.top + screenshot.height ∧
  cursor.top + cursor.height > screenshot.top

instance (screenshot cursor : Shot) : Decidable (overlap screenshot cursor) :=
  inferInstanceAs (Decidable (_ ∧ _ ∧ _ ∧ _))

/-- `MSSBase._merge(screenshot, cursor)` from base.py: returns `screenshot`
unchanged when the cursor rectangle does not overlap it, otherwise runs the
two nested loops (`count_y`, `count_x`, both stepping by 4 over the clipped
cursor rows and columns) and composites the cursor into the raw buffer. -/
def merge (screenshot cursor : Shot) : Shot :=
  let cx := cursor.left
  let cy := cursor.top
  let cw := cursor.width
  let ch := cursor.height
  let x := screenshot.left
  let y := screenshot.top
  let w := screenshot.width
  let cx2 := cx + cw
  let cy2 := cy + ch
  let x2 := x + w
  let y2 := y + screenshot.height
  if overlap screenshot cursor then
    let cyr := (cy - y) * 4
    let cy2r := (cy2 - y2) * 4
    let cxr := (cx - x) * 4
    let cx2r := (cx2 - x2) * 4
    let startCountY := if cyr < 0 then -cyr else 0
    let startCountX := if cxr < 0 then -cxr else 0
    let stopCountY := ch * 4 - max cy2r 0
    let stopCountX := cw * 4 - max cx2r 0
    let newRaw :=
      (pyRange4 startCountY stopCountY).foldl
        (fun sraw countY =>
          let posS := (countY + cyr) * w + cxr
          let posC := countY * cw
          (pyRange4 startCountX stopCountX).foldl
            (fun sraw2 countX => mergePixel cursor.raw sraw2 (posS + countX) (posC + countX))
            sraw)
        screenshot.raw
    { screenshot with raw := newRaw }
  else screenshot

end Base

namespace Screenshot

/-- A `ScreenShot` as a raw BGRA byte buffer (`self.raw`) together with its
size, for `ScreenShot.pixels` and `ScreenShot.pixel`. -/
structure ShotBuf where
  raw : List Nat
  width : Nat
  height : Nat

/-- Python `zip` of three lists: truncates to the shortest. -/
def zip3 {α β γ : Type} : List α → List β → List γ → List (α × β × γ)
  | a :: as, b :: bs, c :: cs => (a, b, c) :: zip3 as bs cs
  | _, _, _ => []

/-- The strided slice `l[s::4]` of a byte buffer. -/
def stride4 (l : List Nat) (s : Nat) : List Nat :=
  (List.range ((l.length - s + 3) / 4)).map (fun k => l.getD (s + 4 * k) 0)

/-- `zip(self.raw[2::4], self.raw[1::4], self.raw[::4])` from
`ScreenShot.pixels`: the flat list of `(R, G, B)` tuples. -/
def pixelTriples (sc : ShotBuf) : List (Nat × Nat × Nat) :=
  zip3 (stride4 sc.raw 2) (stride4 sc.raw 1) (stride4 sc.raw 0)

/-- Python `zip(*[iter(l)] * w)`, with explicit recursion fuel (any fuel of
at least `l.length / w` gives the same value): successive groups of `w`
elements, dropping a final incomplete group (and yielding nothing for
`w = 0`). -/
def groupRowsAux {α : Type} (w : Nat) : Nat → List α → List (List α)
  | 0, _ => []
  | fuel + 1, l =>
    if 0 < w ∧ w ≤ l.length then l.take w :: groupRowsAux w fuel (l.drop w)
    else []

/-- Python `zip(*[iter(l)] * w)`: successive groups of `w` elements,
dropping a final incomplete group (and yielding nothing for `w = 0`). -/
def groupRows {α : Type} (w : Nat) (l : List α) : List (List α) :=
  groupRowsAux w l.length l

/-- `ScreenShot.pixels`: the RGB tuples arranged in rows of `width`. -/
def pixels (sc : ShotBuf) : List (List (Nat × Nat × Nat)) :=
  groupRows sc.width (pixelTriples sc)

/-- `ScreenShot.pixel(coord_x, coord_y)`: `self.pixels[coord_y][coord_x]`,
with an `IndexError` from either subscription turned into a
`ScreenShotError`. -/
def pixel (sc : ShotBuf) (coordX coordY : Int) : Except String (Nat × Nat × Nat) :=
  match pyGet (pixels sc) coordY with
  | none => .error "ScreenShotError: pixel location is out of range."
  | some row =>
    match pyGet row coordX with
    | none => .error "ScreenShotError: pixel location is out of range."
    | some p => .ok p

end Screenshot

namespace Features

/-- The per-word output of `pytesseract.image_to_data(..., output_type=DICT)`
as consumed by `OCRFeature.extract_text_boxes`: parallel lists indexed by
word. -/
structure OCRData where
  text : List String
  conf : List Int
  left : List Int
  top : List Int
  width : List Int
  height : List Int

/-- One element of the list built by `OCRFeature.extract_text_boxes`. -/
structure OCRBox where
  text : String
  confidence : Int
  bbox : Int × Int × Int × Int
deriving DecidableEq

/-- The record appended by `extract_text_boxes` for word `i` (features.py
lines 406-412): the word's text, its confidence, and the bounding box
`(left, top, left + width, top + height)`. -/
def boxOf (d : OCRData) (i : Nat) : OCRBox :=
  { text := d.text.getD i "",
    confidence := d.conf.getD i 0,
    bbox := (d.left.getD i 0, d.top.getD i 0,
             d.left.getD i 0 + d.width.getD i 0,
             d.top.getD i 0 + d.height.getD i 0) }

/-- `OCRFeature.extract_text_boxes`: for `i in range(len(data['text']))`,
keep the words with `data['conf'][i] > 0` and record text, confidence and
`(left, top, left + width, top + height)`. -/
def extract_text_boxes (d : OCRData) : List OCRBox :=
  (List.range d.text.length).foldl
    (fun results i =>
      if 0 < d.conf.getD i 0 then results ++ [boxOf d i]
      else results)
    []

/-- One entry of `ScreenshotHistory.history` as read by `search_history`:
its OCR text, the JSON serialisation `json.dumps(entry['metadata'])`, and
`entry['metadata'].get('tags', [])`. -/
structure HistEntry where
  ocr_text : String
  metadataDump : String
  tags : List String
deriving DecidableEq

/-- `ScreenshotHistory.search_history`: walk the history in order and keep
an entry as soon as the lowercased query occurs in its lowercased OCR text,
else in its lowercased metadata JSON, else in one of its lowercased tags
(the `continue` statements make the three tests an if/elif chain). -/
def search_history (history : List HistEntry) (query : String) : List HistEntry :=
  let queryLower := pyLower query
  history.foldl
    (fun results entry =>
      if pyIn queryLower (pyLower entry.ocr_text) then results ++ [entry]
      else if pyIn queryLower (pyLower entry.metadataDump) then results ++ [entry]
      else if entry.tags.any (fun tag => decide (pyIn queryLower (pyLower tag))) then
        results ++ [entry]
      else results)
    []

/-- Python values appearing in a history entry, as serialised by
`ScreenshotHistory._save_history` (`json.dump`) and reloaded by
`_load_history` (`json.load`). -/
inductive PyVal where
  | str : String → PyVal
  | int : Int → PyVal
  | list : List PyVal → PyVal
  | tuple : List PyVal → PyVal
  | dict : List (String × PyVal) → PyVal

mutual

/-- `json.loads(json.dumps(v))` on such a value: JSON has no tuples, so
`json.dump` writes both Python lists and tuples as JSON arrays, and
`json.load` reads every array back as a Python list. -/
def jsonRoundTrip : PyVal → PyVal
  | .str s => .str s
  | .int n => .int n
  | .list l => .list (jsonRoundTripList l)
  | .tuple l => .list (jsonRoundTripList l)
  | .dict l => .dict (jsonRoundTripDict l)

/-- `jsonRoundTrip` mapped over the elements of a JSON array. -/
def jsonRoundTripList : List PyVal → List PyVal
  | [] => []
  | v :: t => jsonRoundTrip v :: jsonRoundTripList t

/-- `jsonRoundTrip` mapped over the values of a JSON object. -/
def jsonRoundTripDict : List (String × PyVal) → List (String × PyVal)
  | [] => []
  | (k, v) :: t => (k, jsonRoundTrip v) :: jsonRoundTripDict t

end

/-- The history entry built by `ScreenshotHistory.add_screenshot` (lines
646-653 of features.py) for a 2 × 1 screenshot: its `size` field is the
tuple `screenshot.size`. -/
def demoEntry : PyVal :=
  .dict
    [("id", .str "0a1b2c3d"),
     ("timestamp", .str "2026-01-01T00:00:00"),
     ("path", .str "history/0a1b2c3d.png"),
     ("size", .tuple [.int 2, .int 1]),
     ("ocr_text", .str ""),
     ("metadata", .dict [])]

/-- A word bounding box as used by `RedactionFeature.redact_sensitive_data`:
OCR boxes have non-negative pixel coordinates `(x1, y1, x2, y2)`. -/
structure RBox where
  text : String
  x1 : Nat
  y1 : Nat
  x2 : Nat
  y2 : Nat

/-- The numpy slice assignment
`img_array[y1:y2, x1:x2] = cv2.GaussianBlur(img_array[y1:y2, x1:x2], ...)`
with the blur kept abstract: `blur` maps the extracted sub-image to the
replacement sub-image, and only cells inside the rectangle change. -/
def blurRegion (blur : (Nat → Nat → Nat → Nat) → (Nat → Nat → Nat → Nat))
    (img : Nat → Nat → Nat → Nat) (b : RBox) : Nat → Nat → Nat → Nat :=
  fun r c ch =>
    if b.y1 ≤ r ∧ r < b.y2 ∧ b.x1 ≤ c ∧ c < b.x2 then
      blur (fun dr dc dch => img (b.y1 + dr) (b.x1 + dc) dch) (r - b.y1) (c - b.x1) ch
    else img r c ch

/-- The redaction loop of `RedactionFeature.redact_sensitive_data`: for each
OCR box and each of the sensitive-data patterns (email, phone, credit card,
SSN — abstracted to predicates standing for `re.search(pattern, text)`),
blur the box region whenever the pattern matches the box text. -/
def redactLoop (blur : (Nat → Nat → Nat → Nat) → (Nat → Nat → Nat → Nat))
    (patterns : List (String → Bool)) (boxes : List RBox)
    (img : Nat → Nat → Nat → Nat) : Nat → Nat → Nat → Nat :=
  boxes.foldl
    (fun im b =>
      patterns.foldl (fun im2 p => if p b.text then blurRegion blur im2 b else im2) im)
    img

end Features

namespace Recording

/-- The two failure modes of `ScreenRecordingFeature.__init__`. -/
inductive InitErr where
  | dependencyError : InitErr
  | recordingError : InitErr
deriving DecidableEq

/-- `ScreenRecordingFeature.__init__(fps, ...)`: raise `DependencyError` if
imageio or numpy is missing, raise `RecordingError` unless `1 <= fps <= 60`,
otherwise store `fps` and `frame_delay = 1.0 / fps` (the stored pair is
returned; quality and format do not interact with the fps check). -/
def recorderInit (imageioAvailable numpyAvailable : Bool) (fps : Int) :
    Except InitErr (Int × ℚ) :=
  if ¬imageioAvailable ∨ ¬numpyAvailable then .error .dependencyError
  else if ¬(1 ≤ fps ∧ fps ≤ 60) then .error .recordingError
  else .ok (fps, 1 / (fps : ℚ))

/-- The frame-buffering state of one recording, as created by
`ScreenRecordingFeature.start_recording`: the `frames` list, the
`frame_queue` contents, and the queue's `maxsize`. Frames are abstract. -/
structure RecState where
  frames : List Nat
  frameQueue : List Nat
  queueMaxsize : Nat
deriving DecidableEq

/-- The recording state built at start_recording (recording.py lines
153-164): `frames = []`, `frame_queue = queue.Queue(maxsize=60)` (empty). -/
def initRecording : RecState :=
  { frames := [], frameQueue := [], queueMaxsize := 60 }

/-- One iteration of `ScreenRecordingFeature._capture_loop` (lines 288-319):
its first statement evaluates `pause_event.is_set()`, but `pause_event` is
an unbound name in `_capture_loop` (only `recording['pause_event']` exists),
so the iteration raises `NameError` before touching any state; the
`except` clause at line 317 catches it and `break`s. -/
def captureIteration (_st : RecState) : Except String RecState :=
  .error "NameError: name pause_event is not defined"

/-- The capture loop: run up to `n` iterations, stopping (`break`) as soon
as an iteration fails. -/
def captureLoop : Nat → RecState → RecState
  | 0, st => st
  | n + 1, st =>
    match captureIteration st with
    | .error _ => st
    | .ok st' => captureLoop n st'

/-- The frame-storing statement of the capture loop body (line 309,
`recording['frames'].append(img_array)`), as it would execute were the
`pause_event` name bound: the frame is appended to the unbounded `frames`
list and the `frame_queue` is not touched. -/
def captureBodyStore (frame : Nat) (st : RecState) : RecState :=
  { st with frames := st.frames ++ [frame] }

end Recording

/-- Concrete input used by the C1 witness: a 2 × 2 frame at the origin
whose raw bytes are all 10. -/
def demoScreen : Base.Shot :=
  { raw := fun _ => 10, left := 0, top := 0, width := 2, height := 2 }

/-- Concrete input used by the C1 witness: a 1 × 1 cursor at the origin
with bytes `(200, 150, 90)` and alpha 128. -/
def demoCursor : Base.Shot :=
  { raw := fun i => if i = 0 then 200 else if i = 1 then 150 else if i = 2 then 90 else
      if i = 3 then 128 else 0,
    left := 0, top := 0, width := 1, height := 1 }

/-- Concrete input used by the C9 theorems: a 2 × 1 screenshot whose raw
BGRA buffer is `[1, 2, 3, 4, 10, 20, 30, 40]`. -/
def demoShotPix : Screenshot.ShotBuf :=
  { raw := [1, 2, 3, 4, 10, 20, 30, 40], width := 2, height := 1 }

/-- Concrete inputs used by the C4 witness: one sensitive-data pattern that
matches only the literal text `a@b.co`. -/
def demoPatterns : List (String → Bool) :=
  [fun s => decide (s = "a@b.co")]

/-- Concrete inputs used by the C4 witness: one OCR word box with text
`hello` covering the rectangle `[0, 2) × [0, 2)`. -/
def demoBoxes : List Features.RBox :=
  [{ text := "hello", x1 := 0, y1 := 0, x2 := 2, y2 := 2 }]

/-- Concrete image used by the C4 witness. -/
def demoImg : Nat → Nat → Nat → Nat :=
  fun r c ch => r + 2 * c + ch

/-- Concrete OCR engine output used by witnesses: two words, the first with
confidence 0 (dropped), the second with confidence 91 (kept). -/
def demoOCR : Features.OCRData :=
  { text := ["", "hello"], conf := [0, 91], left := [0, 12], top := [0, 7],
    width := [0, 40], height := [0, 11] }

/- ## Theorems -/

section FoldHelpers

/-- A left fold that appends each element passing a Boolean test equals the
filtered input appended to the accumulator. -/
theorem foldl_filter_append {α : Type} (p : α → Bool) (l : List α) :
    ∀ acc : List α,
      l.foldl (fun r e => if p e then r ++ [e] else r) acc = acc ++ l.filter p := by
  induction l with
  | nil => intro acc; simp
  | cons a t ih =>
    intro acc
    by_cases h : p a <;> simp [h, ih]

/-- The fold of `extract_text_boxes` collects `boxOf d i` over exactly the
indices of positive confidence, in index order. -/
theorem extract_boxes_foldl (d : Features.OCRData) (l : List Nat) :
    ∀ acc : List Features.OCRBox,
      l.foldl
        (fun results i =>
          if 0 < d.conf.getD i 0 then results ++ [Features.boxOf d i]
          else results)
        acc =
      acc ++ (l.filter (fun i => decide (0 < d.conf.getD i 0))).map (Features.boxOf d) := by
  induction l with
  | nil => intro acc; simp
  | cons a t ih =>
    intro acc
    by_cases h : 0 < d.conf.getD a 0 <;>
      simp [h, ih, -List.getD_eq_getElem?_getD]

end FoldHelpers

/-- Claim C10: with imageio and numpy available, the `ScreenRecordingFeature`
constructor raises `RecordingError` exactly when `fps` is outside `1..60`,
and for `fps` in that range it succeeds with `frame_delay = 1.0 / fps`. -/
theorem recorder_init_fps_check (fps : Int) :
    (Recording.recorderInit true true fps = .error .recordingError ↔
      ¬(1 ≤ fps ∧ fps ≤ 60)) ∧
    (∀ _h1 : 1 ≤ fps, ∀ _h2 : fps ≤ 60,
      Recording.recorderInit true true fps = .ok (fps, 1 / (fps : ℚ))) := by
  constructor
  · by_cases h : 1 ≤ fps ∧ fps ≤ 60 <;> simp [Recording.recorderInit, h]
  · intro h1 h2
    simp [Recording.recorderInit, h1, h2]

/-- Witness for C10 at `fps = 30`. -/
theorem recorder_init_fps_check_witness :
    Recording.recorderInit true true 30 = .ok (30, 1 / (30 : ℚ)) :=
  (recorder_init_fps_check 30).2 (by norm_num) (by norm_num)

/-- Claim C3 (code bug): in `_capture_loop` every iteration raises
`NameError` on the unbound name `pause_event` and breaks, so no frame is
ever buffered; moreover the statement that stores frames (line 309) appends
to the unbounded `frames` list and never touches the bounded (maxsize 60)
`frame_queue`, contradicting the claim that captured frames are placed into
the queue. -/
theorem capture_loop_buffering :
    (∀ n, Recording.captureLoop n Recording.initRecording = Recording.initRecording) ∧
    Recording.initRecording.frames = [] ∧
    Recording.initRecording.frameQueue = [] ∧
    Recording.initRecording.queueMaxsize = 60 ∧
    (∀ frame st, (Recording.captureBodyStore frame st).frames = st.frames ++ [frame] ∧
      (Recording.captureBodyStore frame st).frameQueue = st.frameQueue) := by
  refine ⟨fun n => ?_, rfl, rfl, rfl, fun frame st => ⟨rfl, rfl⟩⟩
  cases n <;> rfl

/-- Claim C7: `search_history` returns, in order and each at most once,
exactly the entries whose lowercased OCR text, metadata JSON or some tag
contains the lowercased query. -/
theorem search_history_exact (history : List Features.HistEntry) (query : String) :
    Features.search_history history query =
      history.filter
        (fun e =>
          decide (pyIn (pyLower query) (pyLower e.ocr_text)) ||
          decide (pyIn (pyLower query) (pyLower e.metadataDump)) ||
          e.tags.any (fun tag => decide (pyIn (pyLower query) (pyLower tag)))) := by
  unfold Features.search_history
  show
    List.foldl
      (fun (results : List Features.HistEntry) (entry : Features.HistEntry) =>
        if pyIn (pyLower query) (pyLower entry.ocr_text) then results ++ [entry]
        else if pyIn (pyLower query) (pyLower entry.metadataDump) then results ++ [entry]
        else if entry.tags.any (fun tag => decide (pyIn (pyLower query) (pyLower tag))) then
          results ++ [entry]
        else results)
      [] history =
    history.filter
      (fun e =>
        decide (pyIn (pyLower query) (pyLower e.ocr_text)) ||
        decide (pyIn (pyLower query) (pyLower e.metadataDump)) ||
        e.tags.any (fun tag => decide (pyIn (pyLower query) (pyLower tag))))
  have hstep :
      (fun (results : List Features.HistEntry) (entry : Features.HistEntry) =>
        if pyIn (pyLower query) (pyLower entry.ocr_text) then results ++ [entry]
        else if pyIn (pyLower query) (pyLower entry.metadataDump) then results ++ [entry]
        else if entry.tags.any (fun tag => decide (pyIn (pyLower query) (pyLower tag))) then
          results ++ [entry]
        else results) =
      (fun (results : List Features.HistEntry) (entry : Features.HistEntry) =>
        if (decide (pyIn (pyLower query) (pyLower entry.ocr_text)) ||
            decide (pyIn (pyLower query) (pyLower entry.metadataDump)) ||
            entry.tags.any (fun tag => decide (pyIn (pyLower query) (pyLower tag)))) then
          results ++ [entry]
        else results) := by
    funext results entry
    by_cases h1 : pyIn (pyLower query) (pyLower entry.ocr_text)
    · simp [h1]
    · by_cases h2 : pyIn (pyLower query) (pyLower entry.metadataDump)
      · simp [h1, h2]
      · by_cases h3 :
          entry.tags.any (fun tag => decide (pyIn (pyLower query) (pyLower tag)))
        · simp [h1, h2, h3]
        · simp [h1, h2, h3]
  rw [hstep, foldl_filter_append]
  simp

/-- Claim C5: `extract_text_boxes` returns exactly one box per OCR word of
positive confidence, carrying that word's text, confidence and the bounding
box `(left, top, left + width, top + height)`; words of confidence at most
0 are excluded. The length hypotheses record that `image_to_data` returns
parallel lists. -/
theorem extract_text_boxes_spec (d : Features.OCRData)
    (_hc : d.conf.length = d.text.length) (_hl : d.left.length = d.text.length)
    (_ht : d.top.length = d.text.length) (_hw : d.width.length = d.text.length)
    (_hh : d.height.length = d.text.length) :
    ∀ b : Features.OCRBox,
      b ∈ Features.extract_text_boxes d ↔
        ∃ i, i < d.text.length ∧ 0 < d.conf.getD i 0 ∧
          b = { text := d.text.getD i "",
                confidence := d.conf.getD i 0,
                bbox := (d.left.getD i 0, d.top.getD i 0,
                         d.left.getD i 0 + d.width.getD i 0,
                         d.top.getD i 0 + d.height.getD i 0) } := by
  intro b
  unfold Features.extract_text_boxes
  rw [extract_boxes_foldl]
  simp only [List.nil_append, List.mem_map, List.mem_filter, List.mem_range,
    decide_eq_true_eq]
  constructor
  · rintro ⟨i, ⟨hi, hpos⟩, rfl⟩
    exact ⟨i, hi, hpos, rfl⟩
  · rintro ⟨i, hi, hpos, rfl⟩
    exact ⟨i, ⟨hi, hpos⟩, rfl⟩

/-- Witness for C5 on `demoOCR`: the word with confidence 91 is returned
with its bounding box. -/
theorem extract_text_boxes_spec_witness :
    ({ text := "hello", confidence := 91, bbox := (12, 7, 52, 18) } : Features.OCRBox) ∈
      Features.extract_text_boxes demoOCR :=
  (extract_text_boxes_spec demoOCR (by decide) (by decide) (by decide) (by decide)
      (by decide) _).mpr
    ⟨1, by decide, by decide, by decide⟩

/-- Claim C6 (code bug): a history entry as built by `add_screenshot` does
not survive the `json.dump`/`json.load` round trip, because its `size`
field is a tuple and JSON arrays reload as lists. (At runtime the failure
is earlier still: `add_screenshot` calls `screenshot.save`, a method the
`ScreenShot` class does not define.) -/
theorem history_entry_roundtrip_changes :
    Features.jsonRoundTrip Features.demoEntry ≠ Features.demoEntry := by
  simp [Features.demoEntry, Features.jsonRoundTrip, Features.jsonRoundTripDict,
    Features.jsonRoundTripList]

section PixelHelpers

/-- `zip3` of three maps over a shared list is a map over that list. -/
theorem zip3_map_shared {ι α β γ : Type} (f : ι → α) (g : ι → β) (h' : ι → γ) :
    ∀ l : List ι,
      Screenshot.zip3 (l.map f) (l.map g) (l.map h') =
        l.map (fun a => (f a, g a, h' a)) := by
  intro l
  induction l with
  | nil => rfl
  | cons a t ih =>
    show (f a, g a, h' a) :: Screenshot.zip3 (t.map f) (t.map g) (t.map h') = _
    rw [ih]
    rfl

/-- On a buffer of exactly `4 * n` bytes the three stride-4 slices of
`ScreenShot.pixels` all have `n` elements, so the zipped triples are the
list of `(raw[4k+2], raw[4k+1], raw[4k])` for `k < n`. -/
theorem pixelTriples_eq (sc : Screenshot.ShotBuf)
    (hlen : sc.raw.length = 4 * (sc.width * sc.height)) :
    Screenshot.pixelTriples sc =
      (List.range (sc.width * sc.height)).map
        (fun k => (sc.raw.getD (2 + 4 * k) 0, sc.raw.getD (1 + 4 * k) 0,
                   sc.raw.getD (0 + 4 * k) 0)) := by
  unfold Screenshot.pixelTriples Screenshot.stride4
  rw [hlen]
  have h2 : (4 * (sc.width * sc.height) - 2 + 3) / 4 = sc.width * sc.height := by omega
  have h1 : (4 * (sc.width * sc.height) - 1 + 3) / 4 = sc.width * sc.height := by omega
  have h0 : (4 * (sc.width * sc.height) - 0 + 3) / 4 = sc.width * sc.height := by omega
  rw [h2, h1, h0, zip3_map_shared]

/-- `groupRowsAux` with sufficient fuel on a list of exactly `w * h`
elements yields the `h` rows `(l.drop (y * w)).take w`. -/
theorem groupRowsAux_eq {α : Type} (w : Nat) (hw : 0 < w) :
    ∀ (h : Nat) (fuel : Nat) (l : List α), l.length = w * h → h ≤ fuel →
      Screenshot.groupRowsAux w fuel l =
        (List.range h).map (fun y => (l.drop (y * w)).take w) := by
  intro h
  induction h with
  | zero =>
    intro fuel l hl _
    cases fuel with
    | zero => rfl
    | succ fuel =>
      show (if 0 < w ∧ w ≤ l.length then _ else []) = _
      rw [if_neg (by omega)]
      rfl
  | succ h ih =>
    intro fuel l hl hfuel
    have hwl : w ≤ l.length := by
      rw [hl, Nat.mul_succ]
      omega
    cases fuel with
    | zero => omega
    | succ fuel =>
      show (if 0 < w ∧ w ≤ l.length then
          l.take w :: Screenshot.groupRowsAux w fuel (l.drop w)
        else []) = _
      rw [if_pos ⟨hw, hwl⟩,
        ih fuel (l.drop w) (by rw [List.length_drop, hl, Nat.mul_succ]; omega) (by omega),
        List.range_succ_eq_map, List.map_cons, List.map_map]
      have hzero : (l.drop (0 * w)).take w = l.take w := by
        rw [Nat.zero_mul, List.drop_zero]
      rw [hzero]
      congr 1
      apply List.map_congr_left
      intro y _
      show ((l.drop w).drop (y * w)).take w = (l.drop ((y + 1) * w)).take w
      rw [List.drop_drop]
      congr 2
      ring

/-- `ScreenShot.pixels` on a well-formed buffer: `height` rows of `width`
consecutive pixel triples. -/
theorem pixels_eq (sc : Screenshot.ShotBuf)
    (hlen : sc.raw.length = 4 * (sc.width * sc.height)) (hw : 0 < sc.width) :
    Screenshot.pixels sc =
      (List.range sc.height).map
        (fun y => ((Screenshot.pixelTriples sc).drop (y * sc.width)).take sc.width) := by
  unfold Screenshot.pixels Screenshot.groupRows
  have htl : (Screenshot.pixelTriples sc).length = sc.width * sc.height := by
    rw [pixelTriples_eq sc hlen, List.length_map, List.length_range]
  exact groupRowsAux_eq sc.width hw sc.height (Screenshot.pixelTriples sc).length
    (Screenshot.pixelTriples sc) htl (by rw [htl]; exact Nat.le_mul_of_pos_left _ hw)

/-- `pyGet` at a non-negative index is plain list indexing. -/
theorem pyGet_of_nonneg {α : Type} (l : List α) (i : Int) (h : 0 ≤ i) :
    pyGet l i = l[i.toNat]? := by
  show (if 0 ≤ (if i < 0 then i + (l.length : Int) else i) then
      l[(if i < 0 then i + (l.length : Int) else i).toNat]? else none) = l[i.toNat]?
  rw [if_neg (show ¬i < 0 by omega)]
  rw [if_pos h]

/-- `pyGet` at a negative index within range wraps by the length. -/
theorem pyGet_of_neg {α : Type} (l : List α) (i : Int) (hneg : i < 0)
    (hin : 0 ≤ i + l.length) :
    pyGet l i = l[(i + l.length).toNat]? := by
  show (if 0 ≤ (if i < 0 then i + (l.length : Int) else i) then
      l[(if i < 0 then i + (l.length : Int) else i).toNat]? else none) =
    l[(i + l.length).toNat]?
  rw [if_pos hneg]
  rw [if_pos hin]

/-- `pyGet` misses exactly outside `-len ≤ i < len`. -/
theorem pyGet_none_iff {α : Type} (l : List α) (i : Int) :
    pyGet l i = none ↔ ¬(-(l.length : Int) ≤ i ∧ i < l.length) := by
  by_cases hneg : i < 0
  · by_cases hin : 0 ≤ i + (l.length : Int)
    · rw [pyGet_of_neg l i hneg hin]
      rw [List.getElem?_eq_none_iff]
      omega
    · show (if 0 ≤ (if i < 0 then i + (l.length : Int) else i) then
          l[(if i < 0 then i + (l.length : Int) else i).toNat]? else none) = none ↔ _
      rw [if_pos hneg, if_neg hin]
      simp only [true_iff]
      omega
  · rw [pyGet_of_nonneg l i (by omega), List.getElem?_eq_none_iff]
    omega

/-- Row `y` of `pixels` (for `y < height`) has exactly `width` entries. -/
theorem pixels_row_length (sc : Screenshot.ShotBuf)
    (hlen : sc.raw.length = 4 * (sc.width * sc.height)) (y : Nat) (hy : y < sc.height) :
    (((Screenshot.pixelTriples sc).drop (y * sc.width)).take sc.width).length =
      sc.width := by
  have htl : (Screenshot.pixelTriples sc).length = sc.width * sc.height := by
    rw [pixelTriples_eq sc hlen, List.length_map, List.length_range]
  rw [List.length_take, List.length_drop, htl]
  have h1 : (y + 1) * sc.width = y * sc.width + sc.width := by ring
  have h2 : sc.width * sc.height = sc.height * sc.width := by ring
  have h3 : (y + 1) * sc.width ≤ sc.height * sc.width :=
    Nat.mul_le_mul_right sc.width (by omega)
  omega

/-- Entry `x` of row `y` of `pixels` is the pixel triple at flat index
`y * width + x`. -/
theorem pixels_row_entry (sc : Screenshot.ShotBuf)
    (hlen : sc.raw.length = 4 * (sc.width * sc.height)) (x y : Nat)
    (hx : x < sc.width) (hy : y < sc.height) :
    (((Screenshot.pixelTriples sc).drop (y * sc.width)).take sc.width)[x]? =
      some (sc.raw.getD (4 * (y * sc.width + x) + 2) 0,
            sc.raw.getD (4 * (y * sc.width + x) + 1) 0,
            sc.raw.getD (4 * (y * sc.width + x)) 0) := by
  rw [List.getElem?_take_of_lt hx, List.getElem?_drop, pixelTriples_eq sc hlen,
    List.getElem?_map]
  have hk : y * sc.width + x < sc.width * sc.height := by
    have h1 : (y + 1) * sc.width = y * sc.width + sc.width := by ring
    have h2 : sc.width * sc.height = sc.height * sc.width := by ring
    have h3 : (y + 1) * sc.width ≤ sc.height * sc.width :=
      Nat.mul_le_mul_right sc.width (by omega)
    omega
  rw [List.getElem?_range hk]
  show some (sc.raw.getD (2 + 4 * (y * sc.width + x)) 0,
      sc.raw.getD (1 + 4 * (y * sc.width + x)) 0,
      sc.raw.getD (0 + 4 * (y * sc.width + x)) 0) = _
  have e2 : 2 + 4 * (y * sc.width + x) = 4 * (y * sc.width + x) + 2 := by omega
  have e1 : 1 + 4 * (y * sc.width + x) = 4 * (y * sc.width + x) + 1 := by omega
  have e0 : 0 + 4 * (y * sc.width + x) = 4 * (y * sc.width + x) := by omega
  rw [e2, e1, e0]

end PixelHelpers

section RedactHelpers

/-- Folding the pattern checks for one box leaves a pixel alone when every
matching pattern implies the pixel lies outside the box rectangle. -/
theorem redact_patterns_frame (blur : (Nat → Nat → Nat → Nat) → (Nat → Nat → Nat → Nat))
    (b : Features.RBox) (r c ch : Nat) :
    ∀ (ps : List (String → Bool)) (im : Nat → Nat → Nat → Nat),
      (∀ p ∈ ps, p b.text → ¬(b.y1 ≤ r ∧ r < b.y2 ∧ b.x1 ≤ c ∧ c < b.x2)) →
      (ps.foldl (fun im2 p => if p b.text then Features.blurRegion blur im2 b else im2) im)
          r c ch = im r c ch := by
  intro ps
  induction ps with
  | nil => intro im _; rfl
  | cons p t ih =>
    intro im hout
    rw [List.foldl_cons, ih _ (fun q hq => hout q (List.mem_cons_of_mem p hq))]
    by_cases hp : p b.text
    · rw [if_pos hp]
      show (if b.y1 ≤ r ∧ r < b.y2 ∧ b.x1 ≤ c ∧ c < b.x2 then
          blur (fun dr dc dch => im (b.y1 + dr) (b.x1 + dc) dch) (r - b.y1) (c - b.x1) ch
        else im r c ch) = im r c ch
      rw [if_neg (hout p (List.mem_cons_self p t) hp)]
    · rw [if_neg hp]

end RedactHelpers

/-- Claim C4 (code bug; frame effect proved of the embedded redaction loop):
the loop of `redact_sensitive_data` alters only pixels inside OCR word
boxes whose text matches one of the sensitive-data patterns; every pixel
outside all matched boxes keeps its input value. (At runtime the
repository's function raises before returning a screenshot, see
RESULTS.) -/
theorem redact_frame_effect (blur : (Nat → Nat → Nat → Nat) → (Nat → Nat → Nat → Nat))
    (patterns : List (String → Bool)) (boxes : List Features.RBox)
    (img : Nat → Nat → Nat → Nat) (r c ch : Nat)
    (houtside : ∀ b ∈ boxes, (∃ p ∈ patterns, p b.text) →
      ¬(b.y1 ≤ r ∧ r < b.y2 ∧ b.x1 ≤ c ∧ c < b.x2)) :
    Features.redactLoop blur patterns boxes img r c ch = img r c ch := by
  induction boxes generalizing img with
  | nil => rfl
  | cons b t ih =>
    show Features.redactLoop blur patterns t
        (patterns.foldl (fun im2 p => if p b.text then Features.blurRegion blur im2 b else im2)
          img) r c ch = img r c ch
    rw [ih _ (fun u hu => houtside u (List.mem_cons_of_mem b hu))]
    exact redact_patterns_frame blur b r c ch patterns img
      (fun p hp hpb => houtside b (List.mem_cons_self b t) ⟨p, hp, hpb⟩)

/-- Witness for C4: the single box has text `hello`, which matches no
pattern, so the pixel `(1, 1, 0)` inside it is unchanged. -/
theorem redact_frame_effect_witness :
    Features.redactLoop (fun sub => sub) demoPatterns demoBoxes demoImg 1 1 0 =
      demoImg 1 1 0 := by
  refine redact_frame_effect (fun sub => sub) demoPatterns demoBoxes demoImg 1 1 0 ?_
  intro b hb hmatch
  simp only [demoBoxes, List.mem_singleton] at hb
  subst hb
  rcases hmatch with ⟨p, hp, hpb⟩
  simp only [demoPatterns, List.mem_singleton] at hp
  subst hp
  exact absurd hpb (by decide)

/-- Claim C9, counterexample to the stated iff: on a 2 × 1 screenshot the
coordinate `(-1, 0)` lies outside `0 ≤ x < width`, yet `pixel` does not
raise — Python negative indexing wraps around and returns the last pixel
of the row. -/
theorem pixel_negative_index_ok :
    Screenshot.pixel demoShotPix (-1) 0 = .ok (30, 20, 10) := by rfl

/-- Claim C9 as amended: on a well-formed buffer (`len(raw) = 4wh`, `w > 0`),
`pixel(x, y)` raises exactly when `(x, y)` lies outside
`-w ≤ x < w, -h ≤ y < h` (Python indexing wraps negative coordinates), and
for every coordinate with `0 ≤ x < w` and `0 ≤ y < h` it returns
`(raw[4(yw+x)+2], raw[4(yw+x)+1], raw[4(yw+x)])`. -/
theorem pixel_bounds_and_value (sc : Screenshot.ShotBuf)
    (hlen : sc.raw.length = 4 * (sc.width * sc.height)) (hw : 0 < sc.width)
    (x y : Int) :
    ((∃ e, Screenshot.pixel sc x y = .error e) ↔
      ¬(-(sc.width : Int) ≤ x ∧ x < (sc.width : Int) ∧
        -(sc.height : Int) ≤ y ∧ y < (sc.height : Int))) ∧
    (∀ _hx0 : 0 ≤ x, ∀ _hxw : x < (sc.width : Int),
     ∀ _hy0 : 0 ≤ y, ∀ _hyh : y < (sc.height : Int),
      Screenshot.pixel sc x y =
        .ok (sc.raw.getD (4 * (y.toNat * sc.width + x.toNat) + 2) 0,
             sc.raw.getD (4 * (y.toNat * sc.width + x.toNat) + 1) 0,
             sc.raw.getD (4 * (y.toNat * sc.width + x.toNat)) 0)) := by
  have hplen : (Screenshot.pixels sc).length = sc.height := by
    rw [pixels_eq sc hlen hw, List.length_map, List.length_range]
  constructor
  · by_cases hyin : -(sc.height : Int) ≤ y ∧ y < (sc.height : Int)
    · -- the row subscription succeeds; wrap the row index
      obtain ⟨ynat, hysome, hylt⟩ :
          ∃ ynat, pyGet (Screenshot.pixels sc) y = (Screenshot.pixels sc)[ynat]? ∧
            ynat < sc.height := by
        by_cases hyneg : y < 0
        · exact ⟨(y + (Screenshot.pixels sc).length).toNat,
            pyGet_of_neg _ y hyneg (by rw [hplen]; omega), by rw [hplen]; omega⟩
        · exact ⟨y.toNat, pyGet_of_nonneg _ y (by omega), by omega⟩
      have hrow : (Screenshot.pixels sc)[ynat]? =
          some (((Screenshot.pixelTriples sc).drop (ynat * sc.width)).take sc.width) := by
        rw [pixels_eq sc hlen hw, List.getElem?_map, List.getElem?_range hylt]
        rfl
      have hrlen := pixels_row_length sc hlen ynat hylt
      unfold Screenshot.pixel
      rw [hysome, hrow]
      simp only []
      by_cases hxin : -(sc.width : Int) ≤ x ∧ x < (sc.width : Int)
      · obtain ⟨xnat, hxsome, hxlt⟩ :
            ∃ xnat,
              pyGet (((Screenshot.pixelTriples sc).drop (ynat * sc.width)).take sc.width) x =
                (((Screenshot.pixelTriples sc).drop (ynat * sc.width)).take sc.width)[xnat]? ∧
                xnat < sc.width := by
          by_cases hxneg : x < 0
          · exact ⟨(x + (((Screenshot.pixelTriples sc).drop (ynat * sc.width)).take
                sc.width).length).toNat,
              pyGet_of_neg _ x hxneg (by rw [hrlen]; omega), by rw [hrlen]; omega⟩
          · exact ⟨x.toNat, pyGet_of_nonneg _ x (by omega), by omega⟩
        rw [hxsome, pixels_row_entry sc hlen xnat ynat hxlt hylt]
        simp only []
        constructor
        · rintro ⟨e, he⟩
          exact absurd he (by simp)
        · intro hcontra
          exact absurd ⟨hxin.1, hxin.2, hyin.1, hyin.2⟩ hcontra
      · have hxnone :
            pyGet (((Screenshot.pixelTriples sc).drop (ynat * sc.width)).take sc.width) x =
              none := by
          rw [pyGet_none_iff, hrlen]
          exact hxin
        rw [hxnone]
        simp only []
        constructor
        · intro _
          intro hcontra
          exact hxin ⟨hcontra.1, hcontra.2.1⟩
        · intro _
          exact ⟨_, rfl⟩
    · have hynone : pyGet (Screenshot.pixels sc) y = none := by
        rw [pyGet_none_iff, hplen]
        exact hyin
      unfold Screenshot.pixel
      rw [hynone]
      simp only []
      constructor
      · intro _
        intro hcontra
        exact hyin ⟨hcontra.2.2.1, hcontra.2.2.2⟩
      · intro _
        exact ⟨_, rfl⟩
  · intro hx0 hxw hy0 hyh
    have hysome : pyGet (Screenshot.pixels sc) y = (Screenshot.pixels sc)[y.toNat]? :=
      pyGet_of_nonneg _ y hy0
    have hylt : y.toNat < sc.height := by omega
    have hrow : (Screenshot.pixels sc)[y.toNat]? =
        some (((Screenshot.pixelTriples sc).drop (y.toNat * sc.width)).take sc.width) := by
      rw [pixels_eq sc hlen hw, List.getElem?_map, List.getElem?_range hylt]
      rfl
    have hxsome :
        pyGet (((Screenshot.pixelTriples sc).drop (y.toNat * sc.width)).take sc.width) x =
          (((Screenshot.pixelTriples sc).drop (y.toNat * sc.width)).take sc.width)[x.toNat]? :=
      pyGet_of_nonneg _ x hx0
    have hxlt : x.toNat < sc.width := by omega
    unfold Screenshot.pixel
    rw [hysome, hrow]
    simp only []
    rw [hxsome, pixels_row_entry sc hlen x.toNat y.toNat hxlt hylt]

/-- Witness for the amended C9 on `demoShotPix` at `(1, 0)`. -/
theorem pixel_bounds_and_value_witness :
    Screenshot.pixel demoShotPix 1 0 = .ok (30, 20, 10) :=
  (pixel_bounds_and_value demoShotPix (by decide) (by decide) 1 0).2
    (by decide) (by decide) (by decide) (by decide)

section MergeHelpers

/-- Membership in `pyRange4 a b`: the values `a + 4k` for
`k < ceil((b - a) / 4)`. -/
theorem mem_pyRange4 {a b t : Int} :
    t ∈ pyRange4 a b ↔
      ∃ k : Nat, k < (b - a + 3).toNat / 4 ∧ t = a + 4 * (k : Int) := by
  unfold pyRange4
  rw [List.mem_map]
  constructor
  · rintro ⟨k, hk, rfl⟩
    exact ⟨k, List.mem_range.mp hk, rfl⟩
  · rintro ⟨k, hk, rfl⟩
    exact ⟨k, List.mem_range.mpr hk, rfl⟩

/-- `pyRange4` has no duplicates. -/
theorem nodup_pyRange4 (a b : Int) : (pyRange4 a b).Nodup := by
  unfold pyRange4
  refine List.Nodup.map ?_ (List.nodup_range _)
  intro k k' hkk
  simp only [] at hkk
  omega

/-- Membership in the flattened list of loop-counter pairs. -/
theorem mem_pairs {lY lX : List Int} {p : Int × Int} :
    p ∈ lY.flatMap (fun cy => lX.map (fun cx => (cy, cx))) ↔
      p.1 ∈ lY ∧ p.2 ∈ lX := by
  simp only [List.mem_flatMap, List.mem_map]
  constructor
  · rintro ⟨cy, hcy, cx, hcx, rfl⟩
    exact ⟨hcy, hcx⟩
  · rintro ⟨h1, h2⟩
    exact ⟨p.1, h1, p.2, h2, rfl⟩

/-- The flattened list of loop-counter pairs has no duplicates. -/
theorem nodup_pairs (lY lX : List Int) (hY : lY.Nodup) (hX : lX.Nodup) :
    (lY.flatMap (fun cy => lX.map (fun cx => (cy, cx)))).Nodup := by
  rw [List.nodup_flatMap]
  constructor
  · intro cy _
    exact hX.map (fun a b hab => congrArg Prod.snd hab)
  · refine List.Pairwise.imp ?_ hY
    intro a b hne z hz1 hz2
    rcases List.mem_map.mp hz1 with ⟨cx1, _, rfl⟩
    rcases List.mem_map.mp hz2 with ⟨cx2, _, hz⟩
    exact hne (congrArg Prod.fst hz).symm

/-- A fold of per-pixel writes leaves a byte alone when no write in the list
touches it. -/
theorem foldl_untouched {τ : Type} (body : (Int → Nat) → τ → (Int → Nat))
    (W : τ → Int → Prop)
    (hframe : ∀ f t idx, ¬W t idx → body f t idx = f idx) :
    ∀ (l : List τ) (f : Int → Nat) (idx : Int), (∀ t ∈ l, ¬W t idx) →
      l.foldl body f idx = f idx := by
  intro l
  induction l with
  | nil => intro f idx _; rfl
  | cons a t ih =>
    intro f idx hnone
    rw [List.foldl_cons, ih (body f a) idx (fun u hu => hnone u (List.mem_cons_of_mem a hu))]
    exact hframe f a idx (hnone a (List.mem_cons_self a t))

/-- A fold of per-pixel writes with pairwise-disjoint write sets: the final
value of a byte touched by exactly the element `t` of the list is the value
`t` writes when reading the original buffer. -/
theorem foldl_write {τ : Type} (body : (Int → Nat) → τ → (Int → Nat))
    (W : τ → Int → Prop)
    (hframe : ∀ f t idx, ¬W t idx → body f t idx = f idx)
    (hread : ∀ (f g : Int → Nat) (t : τ) (idx : Int), W t idx →
      (∀ j, W t j → f j = g j) → body f t idx = body g t idx) :
    ∀ (l : List τ), l.Nodup → (∀ t ∈ l, ∀ u ∈ l, ∀ i, W t i → W u i → t = u) →
      ∀ (f : Int → Nat) (idx : Int) (t : τ), t ∈ l → W t idx →
        l.foldl body f idx = body f t idx := by
  intro l
  induction l with
  | nil =>
    intro _ _ f idx t ht
    exact absurd ht (by simp)
  | cons a rest ih =>
    intro hnd hdisj f idx t ht hW
    have ha_nin : a ∉ rest := (List.nodup_cons.mp hnd).1
    have hrest_nd : rest.Nodup := (List.nodup_cons.mp hnd).2
    rw [List.foldl_cons]
    rcases List.mem_cons.mp ht with rfl | htrest
    · refine foldl_untouched body W hframe rest (body f t) idx ?_
      intro u hu hWu
      have hut : u = t :=
        hdisj u (List.mem_cons_of_mem t hu) t (List.mem_cons_self t rest) idx hWu hW
      exact absurd (hut ▸ hu) ha_nin
    · have hne : a ≠ t := fun hat => ha_nin (hat ▸ htrest)
      rw [ih hrest_nd
        (fun u hu v hv i h1 h2 =>
          hdisj u (List.mem_cons_of_mem a hu) v (List.mem_cons_of_mem a hv) i h1 h2)
        (body f a) idx t htrest hW]
      refine hread (body f a) f t idx hW ?_
      intro j hj
      refine hframe f a j ?_
      intro hWaj
      exact hne (hdisj a (List.mem_cons_self a rest) t ht j hWaj hj)

/-- The two nested loops of `_merge` are the single fold over the flattened
list of `(count_y, count_x)` pairs. -/
theorem merge_loops_flatten (craw : Int → Nat) (cyr cxr w cw : Int) (lX : List Int) :
    ∀ (lY : List Int) (init : Int → Nat),
      lY.foldl
        (fun sraw countY =>
          lX.foldl
            (fun sraw2 countX =>
              Base.mergePixel craw sraw2 ((countY + cyr) * w + cxr + countX)
                (countY * cw + countX))
            sraw)
        init =
      (lY.flatMap (fun cy => lX.map (fun cx => (cy, cx)))).foldl
        (fun s p =>
          Base.mergePixel craw s ((p.1 + cyr) * w + cxr + p.2) (p.1 * cw + p.2))
        init := by
  intro lY
  induction lY with
  | nil => intro init; rfl
  | cons a t ih =>
    intro init
    rw [List.foldl_cons, List.flatMap_cons, List.foldl_append, List.foldl_map, ih]

/-- A byte outside `spos .. spos + 2` is untouched by `mergePixel`. -/
theorem mergePixel_frame (craw sraw : Int → Nat) (spos cpos idx : Int)
    (h : ¬(spos ≤ idx ∧ idx < spos + 3)) :
    Base.mergePixel craw sraw spos cpos idx = sraw idx := by
  show (if craw (cpos + 3) = 0 then sraw
    else if craw (cpos + 3) = Base.OPAQUE then
      fun idx2 => if spos ≤ idx2 ∧ idx2 < spos + 3 then craw (cpos + (idx2 - spos))
        else sraw idx2
    else
      fun idx2 =>
        if spos ≤ idx2 ∧ idx2 < spos + 3 then
          Base.blendByte (craw (cpos + (idx2 - spos))) (sraw idx2) (craw (cpos + 3))
        else sraw idx2) idx = sraw idx
  by_cases h0 : craw (cpos + 3) = 0
  · rw [if_pos h0]
  · rw [if_neg h0]
    by_cases hop : craw (cpos + 3) = Base.OPAQUE
    · rw [if_pos hop]
      show (if spos ≤ idx ∧ idx < spos + 3 then craw (cpos + (idx - spos)) else sraw idx) =
        sraw idx
      rw [if_neg h]
    · rw [if_neg hop]
      show (if spos ≤ idx ∧ idx < spos + 3 then
          Base.blendByte (craw (cpos + (idx - spos))) (sraw idx) (craw (cpos + 3))
        else sraw idx) = sraw idx
      rw [if_neg h]

/-- On a byte inside `spos .. spos + 2`, `mergePixel` depends on the screen
buffer only through the bytes `spos .. spos + 2`. -/
theorem mergePixel_read (craw f g : Int → Nat) (spos cpos idx : Int)
    (hW : spos ≤ idx ∧ idx < spos + 3)
    (hagree : ∀ j, (spos ≤ j ∧ j < spos + 3) → f j = g j) :
    Base.mergePixel craw f spos cpos idx = Base.mergePixel craw g spos cpos idx := by
  show (if craw (cpos + 3) = 0 then f
    else if craw (cpos + 3) = Base.OPAQUE then
      fun idx2 => if spos ≤ idx2 ∧ idx2 < spos + 3 then craw (cpos + (idx2 - spos))
        else f idx2
    else
      fun idx2 =>
        if spos ≤ idx2 ∧ idx2 < spos + 3 then
          Base.blendByte (craw (cpos + (idx2 - spos))) (f idx2) (craw (cpos + 3))
        else f idx2) idx =
    (if craw (cpos + 3) = 0 then g
    else if craw (cpos + 3) = Base.OPAQUE then
      fun idx2 => if spos ≤ idx2 ∧ idx2 < spos + 3 then craw (cpos + (idx2 - spos))
        else g idx2
    else
      fun idx2 =>
        if spos ≤ idx2 ∧ idx2 < spos + 3 then
          Base.blendByte (craw (cpos + (idx2 - spos))) (g idx2) (craw (cpos + 3))
        else g idx2) idx
  by_cases h0 : craw (cpos + 3) = 0
  · rw [if_pos h0, if_pos h0]
    exact hagree idx hW
  · rw [if_neg h0, if_neg h0]
    by_cases hop : craw (cpos + 3) = Base.OPAQUE
    · rw [if_pos hop, if_pos hop]
      show (if spos ≤ idx ∧ idx < spos + 3 then craw (cpos + (idx - spos)) else f idx) =
        (if spos ≤ idx ∧ idx < spos + 3 then craw (cpos + (idx - spos)) else g idx)
      rw [if_pos hW, if_pos hW]
    · rw [if_neg hop, if_neg hop]
      show (if spos ≤ idx ∧ idx < spos + 3 then
          Base.blendByte (craw (cpos + (idx - spos))) (f idx) (craw (cpos + 3))
        else f idx) =
        (if spos ≤ idx ∧ idx < spos + 3 then
          Base.blendByte (craw (cpos + (idx - spos))) (g idx) (craw (cpos + 3))
        else g idx)
      rw [if_pos hW, if_pos hW, hagree idx hW]

/-- A non-overlapping cursor leaves the screenshot unchanged. -/
theorem merge_of_not_overlap (scr cur : Base.Shot) (h : ¬Base.overlap scr cur) :
    Base.merge scr cur = scr := by
  unfold Base.merge
  simp only [if_neg h]

/-- In the overlap case, the raw buffer produced by `_merge` is the fold of
`mergePixel` writes over the flattened list of loop-counter pairs. -/
theorem merge_raw_of_overlap (scr cur : Base.Shot) (hov : Base.overlap scr cur) :
    (Base.merge scr cur).raw =
      ((pyRange4
          (if (cur.top - scr.top) * 4 < 0 then -((cur.top - scr.top) * 4) else 0)
          (cur.height * 4 -
            max ((cur.top + cur.height - (scr.top + scr.height)) * 4) 0)).flatMap
        (fun cy =>
          (pyRange4
            (if (cur.left - scr.left) * 4 < 0 then -((cur.left - scr.left) * 4) else 0)
            (cur.width * 4 -
              max ((cur.left + cur.width - (scr.left + scr.width)) * 4) 0)).map
            (fun cx => (cy, cx)))).foldl
        (fun s p =>
          Base.mergePixel cur.raw s
            ((p.1 + (cur.top - scr.top) * 4) * scr.width + (cur.left - scr.left) * 4 + p.2)
            (p.1 * cur.width + p.2))
        scr.raw := by
  unfold Base.merge
  simp only [if_pos hov]
  exact merge_loops_flatten cur.raw ((cur.top - scr.top) * 4) ((cur.left - scr.left) * 4)
    scr.width cur.width _ _ scr.raw

/-- Injectivity of the row-major pixel position `r * w + c`. -/
theorem rowcol_inj (w r r' c c' : Int) (hw : 0 < w) (hc0 : 0 ≤ c) (hcw : c < w)
    (hc0' : 0 ≤ c') (hcw' : c' < w) (he : r * w + c = r' * w + c') :
    r = r' ∧ c = c' := by
  have h1 : r = r' := by
    rcases lt_trichotomy r r' with h | h | h
    · have h2 : (r + 1) * w ≤ r' * w := mul_le_mul_of_nonneg_right (by omega) (by omega)
      nlinarith
    · exact h
    · have h2 : (r' + 1) * w ≤ r * w := mul_le_mul_of_nonneg_right (by omega) (by omega)
      nlinarith
  subst h1
  omega

/-- Pointwise value of the flattened `_merge` fold: on the byte
`4 * (py * w + px) + k` of a frame pixel `(px, py)` and channel `k`, the
fold blends the cursor pixel when `k` is a colour channel and the pixel
lies under the cursor, and leaves the byte unchanged otherwise. -/
theorem merge_fold_pixel (craw sraw : Int → Nat) (x y w h cx cy cw ch px py k : Int)
    (hpx0 : 0 ≤ px) (hpxw : px < w) (hpy0 : 0 ≤ py) (hpyh : py < h)
    (hk0 : 0 ≤ k) (hk4 : k < 4) :
    ((pyRange4 (if (cy - y) * 4 < 0 then -((cy - y) * 4) else 0)
        (ch * 4 - max ((cy + ch - (y + h)) * 4) 0)).flatMap
      (fun a => (pyRange4 (if (cx - x) * 4 < 0 then -((cx - x) * 4) else 0)
          (cw * 4 - max ((cx + cw - (x + w)) * 4) 0)).map (fun b => (a, b)))).foldl
      (fun s p => Base.mergePixel craw s ((p.1 + (cy - y) * 4) * w + (cx - x) * 4 + p.2)
        (p.1 * cw + p.2)) sraw
      (4 * (py * w + px) + k) =
    if k < 3 ∧ cx ≤ x + px ∧ x + px < cx + cw ∧ cy ≤ y + py ∧ y + py < cy + ch then
      if craw (4 * ((y + py - cy) * cw + (x + px - cx)) + 3) = 0 then
        sraw (4 * (py * w + px) + k)
      else if craw (4 * ((y + py - cy) * cw + (x + px - cx)) + 3) = 255 then
        craw (4 * ((y + py - cy) * cw + (x + px - cx)) + k)
      else
        Base.blendByte (craw (4 * ((y + py - cy) * cw + (x + px - cx)) + k))
          (sraw (4 * (py * w + px) + k))
          (craw (4 * ((y + py - cy) * cw + (x + px - cx)) + 3))
    else sraw (4 * (py * w + px) + k) := by
  have hw0 : (0 : Int) < w := by omega
  have hSY : (if (cy - y) * 4 < 0 then -((cy - y) * 4) else 0) = 4 * max (y - cy) 0 := by
    split_ifs <;> omega
  have hSX : (if (cx - x) * 4 < 0 then -((cx - x) * 4) else 0) = 4 * max (x - cx) 0 := by
    split_ifs <;> omega
  have hchar : ∀ p : Int × Int,
      p ∈ (pyRange4 (if (cy - y) * 4 < 0 then -((cy - y) * 4) else 0)
          (ch * 4 - max ((cy + ch - (y + h)) * 4) 0)).flatMap
        (fun a => (pyRange4 (if (cx - x) * 4 < 0 then -((cx - x) * 4) else 0)
            (cw * 4 - max ((cx + cw - (x + w)) * 4) 0)).map (fun b => (a, b))) →
      ∃ R C : Int, p.1 + (cy - y) * 4 = 4 * R ∧ (cx - x) * 4 + p.2 = 4 * C ∧
        0 ≤ R ∧ R < h ∧ cy ≤ y + R ∧ y + R < cy + ch ∧
        0 ≤ C ∧ C < w ∧ cx ≤ x + C ∧ x + C < cx + cw := by
    intro p hp
    rw [mem_pairs] at hp
    obtain ⟨hp1, hp2⟩ := hp
    rw [mem_pyRange4, hSY] at hp1
    rw [mem_pyRange4, hSX] at hp2
    obtain ⟨kY, hkY, hp1⟩ := hp1
    obtain ⟨kX, hkX, hp2⟩ := hp2
    exact ⟨max cy y - y + kY, max cx x - x + kX, by omega, by omega, by omega, by omega,
      by omega, by omega, by omega, by omega, by omega, by omega⟩
  have hframeI : ∀ (f : Int → Nat) (p : Int × Int) (i : Int),
      ¬((p.1 + (cy - y) * 4) * w + (cx - x) * 4 + p.2 ≤ i ∧
        i < (p.1 + (cy - y) * 4) * w + (cx - x) * 4 + p.2 + 3) →
      Base.mergePixel craw f ((p.1 + (cy - y) * 4) * w + (cx - x) * 4 + p.2)
        (p.1 * cw + p.2) i = f i :=
    fun f p i hni => mergePixel_frame craw f _ _ i hni
  by_cases hin : k < 3 ∧ cx ≤ x + px ∧ x + px < cx + cw ∧ cy ≤ y + py ∧ y + py < cy + ch
  case pos =>
    rw [if_pos hin]
    obtain ⟨hk3, hx1, hx2, hy1, hy2⟩ := hin
    have hmemY : (4 * (y + py - cy)) ∈
        pyRange4 (if (cy - y) * 4 < 0 then -((cy - y) * 4) else 0)
          (ch * 4 - max ((cy + ch - (y + h)) * 4) 0) := by
      rw [mem_pyRange4, hSY]
      exact ⟨(y + py - max cy y).toNat, by omega, by omega⟩
    have hmemX : (4 * (x + px - cx)) ∈
        pyRange4 (if (cx - x) * 4 < 0 then -((cx - x) * 4) else 0)
          (cw * 4 - max ((cx + cw - (x + w)) * 4) 0) := by
      rw [mem_pyRange4, hSX]
      exact ⟨(x + px - max cx x).toNat, by omega, by omega⟩
    have hmemP : ((4 * (y + py - cy), 4 * (x + px - cx)) : Int × Int) ∈
        (pyRange4 (if (cy - y) * 4 < 0 then -((cy - y) * 4) else 0)
          (ch * 4 - max ((cy + ch - (y + h)) * 4) 0)).flatMap
        (fun a => (pyRange4 (if (cx - x) * 4 < 0 then -((cx - x) * 4) else 0)
            (cw * 4 - max ((cx + cw - (x + w)) * 4) 0)).map (fun b => (a, b))) := by
      rw [mem_pairs]
      exact ⟨hmemY, hmemX⟩
    have hnd := nodup_pairs
      (pyRange4 (if (cy - y) * 4 < 0 then -((cy - y) * 4) else 0)
        (ch * 4 - max ((cy + ch - (y + h)) * 4) 0))
      (pyRange4 (if (cx - x) * 4 < 0 then -((cx - x) * 4) else 0)
        (cw * 4 - max ((cx + cw - (x + w)) * 4) 0))
      (nodup_pyRange4 _ _) (nodup_pyRange4 _ _)
    have hdisj : ∀ p ∈ (pyRange4 (if (cy - y) * 4 < 0 then -((cy - y) * 4) else 0)
          (ch * 4 - max ((cy + ch - (y + h)) * 4) 0)).flatMap
        (fun a => (pyRange4 (if (cx - x) * 4 < 0 then -((cx - x) * 4) else 0)
            (cw * 4 - max ((cx + cw - (x + w)) * 4) 0)).map (fun b => (a, b))),
        ∀ u ∈ (pyRange4 (if (cy - y) * 4 < 0 then -((cy - y) * 4) else 0)
          (ch * 4 - max ((cy + ch - (y + h)) * 4) 0)).flatMap
        (fun a => (pyRange4 (if (cx - x) * 4 < 0 then -((cx - x) * 4) else 0)
            (cw * 4 - max ((cx + cw - (x + w)) * 4) 0)).map (fun b => (a, b))),
        ∀ i : Int,
          ((p.1 + (cy - y) * 4) * w + (cx - x) * 4 + p.2 ≤ i ∧
            i < (p.1 + (cy - y) * 4) * w + (cx - x) * 4 + p.2 + 3) →
          ((u.1 + (cy - y) * 4) * w + (cx - x) * 4 + u.2 ≤ i ∧
            i < (u.1 + (cy - y) * 4) * w + (cx - x) * 4 + u.2 + 3) →
          p = u := by
      intro p hp u hu i hWp hWu
      obtain ⟨R, C, hR4, hC4, hR0, hRh, _, _, hC0, hCw, _, _⟩ := hchar p hp
      obtain ⟨R', C', hR4', hC4', hR0', hRh', _, _, hC0', hCw', _, _⟩ := hchar u hu
      have hsp : (p.1 + (cy - y) * 4) * w + (cx - x) * 4 + p.2 = 4 * (R * w + C) := by
        linear_combination w * hR4 + hC4
      have hsu : (u.1 + (cy - y) * 4) * w + (cx - x) * 4 + u.2 = 4 * (R' * w + C') := by
        linear_combination w * hR4' + hC4'
      rw [hsp] at hWp
      rw [hsu] at hWu
      have heq : R * w + C = R' * w + C' := by omega
      have hRC := rowcol_inj w R R' C C' hw0 hC0 hCw hC0' hCw' heq
      apply Prod.ext
      · omega
      · omega
    have hWa : (4 * (y + py - cy) + (cy - y) * 4) * w + (cx - x) * 4 + 4 * (x + px - cx) =
        4 * (py * w + px) := by ring
    have hW1 : (4 * (y + py - cy) + (cy - y) * 4) * w + (cx - x) * 4 + 4 * (x + px - cx) ≤
        4 * (py * w + px) + k := by omega
    have hW2 : 4 * (py * w + px) + k <
        (4 * (y + py - cy) + (cy - y) * 4) * w + (cx - x) * 4 + 4 * (x + px - cx) + 3 := by
      omega
    have hkey := foldl_write
      (fun s p => Base.mergePixel craw s ((p.1 + (cy - y) * 4) * w + (cx - x) * 4 + p.2)
        (p.1 * cw + p.2))
      (fun p i => (p.1 + (cy - y) * 4) * w + (cx - x) * 4 + p.2 ≤ i ∧
        i < (p.1 + (cy - y) * 4) * w + (cx - x) * 4 + p.2 + 3)
      hframeI
      (fun f g t i hWt hag =>
        mergePixel_read craw f g ((t.1 + (cy - y) * 4) * w + (cx - x) * 4 + t.2)
          (t.1 * cw + t.2) i hWt hag)
      ((pyRange4 (if (cy - y) * 4 < 0 then -((cy - y) * 4) else 0)
          (ch * 4 - max ((cy + ch - (y + h)) * 4) 0)).flatMap
        (fun a => (pyRange4 (if (cx - x) * 4 < 0 then -((cx - x) * 4) else 0)
            (cw * 4 - max ((cx + cw - (x + w)) * 4) 0)).map (fun b => (a, b))))
      hnd hdisj sraw (4 * (py * w + px) + k)
      (4 * (y + py - cy), 4 * (x + px - cx)) hmemP ⟨hW1, hW2⟩
    rw [hkey]
    show Base.mergePixel craw sraw
        ((4 * (y + py - cy) + (cy - y) * 4) * w + (cx - x) * 4 + 4 * (x + px - cx))
        (4 * (y + py - cy) * cw + 4 * (x + px - cx)) (4 * (py * w + px) + k) = _
    have hsposE : (4 * (y + py - cy) + (cy - y) * 4) * w + (cx - x) * 4 + 4 * (x + px - cx) =
        4 * (py * w + px) := by ring
    have hcposE : 4 * (y + py - cy) * cw + 4 * (x + px - cx) =
        4 * ((y + py - cy) * cw + (x + px - cx)) := by ring
    rw [hsposE, hcposE]
    have hsub : 4 * (py * w + px) + k - 4 * (py * w + px) = k := by ring
    show (if craw (4 * ((y + py - cy) * cw + (x + px - cx)) + 3) = 0 then sraw
      else if craw (4 * ((y + py - cy) * cw + (x + px - cx)) + 3) = Base.OPAQUE then
        fun idx2 =>
          if 4 * (py * w + px) ≤ idx2 ∧ idx2 < 4 * (py * w + px) + 3 then
            craw (4 * ((y + py - cy) * cw + (x + px - cx)) + (idx2 - 4 * (py * w + px)))
          else sraw idx2
      else
        fun idx2 =>
          if 4 * (py * w + px) ≤ idx2 ∧ idx2 < 4 * (py * w + px) + 3 then
            Base.blendByte
              (craw (4 * ((y + py - cy) * cw + (x + px - cx)) + (idx2 - 4 * (py * w + px))))
              (sraw idx2) (craw (4 * ((y + py - cy) * cw + (x + px - cx)) + 3))
          else sraw idx2) (4 * (py * w + px) + k) = _
    by_cases ha0 : craw (4 * ((y + py - cy) * cw + (x + px - cx)) + 3) = 0
    · rw [if_pos ha0, if_pos ha0]
    · rw [if_neg ha0, if_neg ha0]
      rw [show Base.OPAQUE = 255 from rfl]
      by_cases hop : craw (4 * ((y + py - cy) * cw + (x + px - cx)) + 3) = 255
      · rw [if_pos hop, if_pos hop]
        show (if 4 * (py * w + px) ≤ 4 * (py * w + px) + k ∧
            4 * (py * w + px) + k < 4 * (py * w + px) + 3 then
            craw (4 * ((y + py - cy) * cw + (x + px - cx)) +
              (4 * (py * w + px) + k - 4 * (py * w + px)))
          else sraw (4 * (py * w + px) + k)) =
          craw (4 * ((y + py - cy) * cw + (x + px - cx)) + k)
        rw [if_pos ⟨by omega, by omega⟩, hsub]
      · rw [if_neg hop, if_neg hop]
        show (if 4 * (py * w + px) ≤ 4 * (py * w + px) + k ∧
            4 * (py * w + px) + k < 4 * (py * w + px) + 3 then
            Base.blendByte
              (craw (4 * ((y + py - cy) * cw + (x + px - cx)) +
                (4 * (py * w + px) + k - 4 * (py * w + px))))
              (sraw (4 * (py * w + px) + k))
              (craw (4 * ((y + py - cy) * cw + (x + px - cx)) + 3))
          else sraw (4 * (py * w + px) + k)) =
          Base.blendByte (craw (4 * ((y + py - cy) * cw + (x + px - cx)) + k))
            (sraw (4 * (py * w + px) + k))
            (craw (4 * ((y + py - cy) * cw + (x + px - cx)) + 3))
        rw [if_pos ⟨by omega, by omega⟩, hsub]
  case neg =>
    rw [if_neg hin]
    refine foldl_untouched
      (fun (s : Int → Nat) (p : Int × Int) =>
        Base.mergePixel craw s ((p.1 + (cy - y) * 4) * w + (cx - x) * 4 + p.2)
          (p.1 * cw + p.2))
      (fun (p : Int × Int) (i : Int) =>
        (p.1 + (cy - y) * 4) * w + (cx - x) * 4 + p.2 ≤ i ∧
          i < (p.1 + (cy - y) * 4) * w + (cx - x) * 4 + p.2 + 3)
      hframeI _ sraw _ ?_
    intro p hp hWp
    obtain ⟨R, C, hR4, hC4, hR0, hRh, hRy1, hRy2, hC0, hCw, hCx1, hCx2⟩ := hchar p hp
    have hsp : (p.1 + (cy - y) * 4) * w + (cx - x) * 4 + p.2 = 4 * (R * w + C) := by
      linear_combination w * hR4 + hC4
    rw [hsp] at hWp
    by_cases hk3 : k < 3
    · have hPC : py * w + px = R * w + C := by omega
      have hRC := rowcol_inj w py R px C hw0 hpx0 hpxw hC0 hCw hPC
      exact hin ⟨hk3, by omega, by omega, by omega, by omega⟩
    · omega

end MergeHelpers

/-- Claim C1: cursor compositing in `MSSBase._merge` (used by `grab` when
`with_cursor` is set). If the cursor rectangle does not overlap the frame,
the frame is returned unchanged. For every frame pixel `(px, py)` and byte
channel `k < 4`: when `k` is one of the three colour channels and the pixel
lies under the cursor, a cursor alpha of 0 leaves the screen byte
unchanged, an alpha of 255 replaces it with the cursor byte, and an
intermediate alpha `a` yields
`int(cursor * a / 255 + screen * (1 - a / 255))` evaluated as the program
evaluates it, in IEEE-754 binary64 arithmetic (that is, `blendByte`);
every byte outside the overlap region, and the alpha channel, is
unchanged. -/
theorem merge_cursor_blend (scr cur : Base.Shot) (px py k : Int)
    (hpx0 : 0 ≤ px) (hpxw : px < scr.width) (hpy0 : 0 ≤ py) (hpyh : py < scr.height)
    (hk0 : 0 ≤ k) (hk4 : k < 4) :
    (¬Base.overlap scr cur → Base.merge scr cur = scr) ∧
    (Base.merge scr cur).raw (4 * (py * scr.width + px) + k) =
      (if k < 3 ∧ cur.left ≤ scr.left + px ∧ scr.left + px < cur.left + cur.width ∧
          cur.top ≤ scr.top + py ∧ scr.top + py < cur.top + cur.height then
        if cur.raw (4 * ((scr.top + py - cur.top) * cur.width +
            (scr.left + px - cur.left)) + 3) = 0 then
          scr.raw (4 * (py * scr.width + px) + k)
        else if cur.raw (4 * ((scr.top + py - cur.top) * cur.width +
            (scr.left + px - cur.left)) + 3) = 255 then
          cur.raw (4 * ((scr.top + py - cur.top) * cur.width +
            (scr.left + px - cur.left)) + k)
        else
          Base.blendByte
            (cur.raw (4 * ((scr.top + py - cur.top) * cur.width +
              (scr.left + px - cur.left)) + k))
            (scr.raw (4 * (py * scr.width + px) + k))
            (cur.raw (4 * ((scr.top + py - cur.top) * cur.width +
              (scr.left + px - cur.left)) + 3))
      else scr.raw (4 * (py * scr.width + px) + k)) := by
  refine ⟨merge_of_not_overlap scr cur, ?_⟩
  by_cases hov : Base.overlap scr cur
  case pos =>
    rw [merge_raw_of_overlap scr cur hov]
    exact merge_fold_pixel cur.raw scr.raw scr.left scr.top scr.width scr.height
      cur.left cur.top cur.width cur.height px py k hpx0 hpxw hpy0 hpyh hk0 hk4
  case neg =>
    have hnc : ¬(k < 3 ∧ cur.left ≤ scr.left + px ∧ scr.left + px < cur.left + cur.width ∧
        cur.top ≤ scr.top + py ∧ scr.top + py < cur.top + cur.height) := by
      rintro ⟨-, h1, h2, h3, h4⟩
      refine hov ?_
      unfold Base.overlap
      omega
    rw [merge_of_not_overlap scr cur hov, if_neg hnc]

/-- Witness for C1: blending the half-transparent 1 × 1 `demoCursor` onto
`demoScreen` sets the first byte to
`int(200 * 128 / 255 + 10 * (1 - 128 / 255)) = 105`. -/
theorem merge_cursor_blend_witness :
    (Base.merge demoScreen demoCursor).raw 0 = 105 := by
  have h := (merge_cursor_blend demoScreen demoCursor 0 0 0 (by decide) (by decide)
    (by decide) (by decide) (by decide) (by decide)).2
  have h2 : (4 : Int) * (0 * demoScreen.width + 0) + 0 = 0 := by norm_num
  rw [h2] at h
  rw [h]
  rfl

end PyShotter
